import Mathlib

/-!
Verification of `metacall_jupyter/kernel.py` (the MetaCall Jupyter kernel).

Python strings are modelled as `List Char`; the byte strings exchanged with
subprocesses are likewise modelled as `List Char` (one `Char` per byte, which
is faithful for the ASCII data this kernel handles).  Every function below is a
direct transcription of the correspondingly named Python function in
`src/metacall_jupyter/kernel.py`; external effects (subprocesses, the file
system) are passed in explicitly as data.
-/

set_option autoImplicit false

namespace MetacallKernel

/-- The character list of a string literal; Python `str` values are modelled as `List Char`. -/
def chars (s : String) : List Char := s.data

/-- The single-quote character (ASCII 39). -/
def sq : Char := Char.ofNat 39

/-- The double-quote character (ASCII 34). -/
def dq : Char := Char.ofNat 34

/-- Models Python `s.split("\n")`: split into pieces between newline characters,
with empty pieces kept (so `"".split("\n") == [""]`). -/
def splitNL : List Char → List (List Char)
  | [] => [[]]
  | c :: cs =>
    match splitNL cs with
    | [] => [[]]
    | l :: ls => if c = '\n' then [] :: l :: ls else (c :: l) :: ls

/-- Models Python `"\n".join(lines)`. -/
def joinNL (ls : List (List Char)) : List Char := List.intercalate ['\n'] ls

/-- The line-scanning loop of `split_magics` (kernel.py lines 129-143).  While in the
`"magics"` state a line beginning with `>` is stripped of all its leading `>` markers
(Python `line.lstrip(">")`) and appended to the magic list, and an empty line is
skipped; the first non-empty line that does not begin with `>` switches permanently
to the `"code"` state, from which every remaining line (marker-prefixed or not)
belongs to the code. -/
def splitMagicsGo : List (List Char) → List (List Char) × List (List Char)
  | [] => ([], [])
  | l :: rest =>
    if l.head? = some '>' then
      ((l.dropWhile (fun c => c = '>')) :: (splitMagicsGo rest).1, (splitMagicsGo rest).2)
    else if l = [] then
      splitMagicsGo rest
    else
      ([], l :: rest)

/-- Models `split_magics`: splits the raw cell text on newlines, runs the
state machine of `splitMagicsGo`, and re-joins the code lines with newlines. -/
def split_magics (code : List Char) : List (List Char) × List Char :=
  let r := splitMagicsGo (splitNL code)
  (r.1, joinNL r.2)

/-- Models `error_message`: wraps the text in the ANSI red escape `"\x1b[0;31m"` and
the reset escape `"\x1b[0m"` (Python writes the first as `"\033[0;31m"`). -/
def error_message (code : List Char) : List Char :=
  chars "\x1b[0;31m" ++ code ++ chars "\x1b[0m"

/-- Models the Python substring test `pat in t`: true when `pat` occurs contiguously
inside `t`. -/
def containsSub (pat : List Char) : List Char → Bool
  | [] => pat.isEmpty
  | c :: rest => pat.isPrefixOf (c :: rest) || containsSub pat rest

/-- Models the Python substring test `"error" in t` (case-sensitive, literal). -/
def containsError (t : List Char) : Bool := containsSub (chars "error") t

/-- The literal left part `Script (` of the regular expression in
`delete_line_from_string`. -/
def scriptOpen : List Char := chars "Script ("

/-- The literal right part `) loaded correctly` of the regular expression in
`delete_line_from_string`. -/
def scriptClose : List Char := chars ") loaded correctly"

/-- Greedy search for the `.+` part of the regular expression
`Script \(.+\) loaded correctly`: starting from the longest candidate length and
going down, find a length `k ≥ 1` such that `scriptClose` follows the first `k`
characters of `body`. -/
def findDot : Nat → List Char → Option Nat
  | 0, _ => none
  | k + 1, body =>
    if scriptClose.isPrefixOf (body.drop (k + 1)) then some (k + 1) else findDot k body

/-- Length of a match of the regular expression `Script \(.+\) loaded correctly`
anchored at the head of `l`, or `none` if there is no match at the head.  The `.+`
part greedily matches one or more non-newline characters (bounded by the run of
non-newline characters following `Script (`). -/
def matchLenAt (l : List Char) : Option Nat :=
  if scriptOpen.isPrefixOf l then
    let body := l.drop 8
    match findDot (body.takeWhile (fun c => c != '\n')).length body with
    | some k => some (8 + k + 18)
    | none => none
  else none

/-- The left-to-right scan of `re.sub(regex, "", code)`: at each position, if the
regular expression matches there, the matched text is removed and scanning resumes
after it; otherwise the character is kept.  The first argument is fuel, always
called with at least the length of the text. -/
def reSubGo : Nat → List Char → List Char
  | 0, l => l
  | fuel + 1, l =>
    match l with
    | [] => []
    | c :: rest =>
      match matchLenAt (c :: rest) with
      | some n => reSubGo fuel ((c :: rest).drop n)
      | none => c :: reSubGo fuel rest

/-- Models `delete_line_from_string` (kernel.py lines 239-245): removes every
substring matching `Script \(.+\) loaded correctly` (the `regex.search` guard in the
Python code does not change the result of `regex.sub`, which is a no-op when there
is no match). -/
def delete_line_from_string (code : List Char) : List Char :=
  reSubGo code.length code

/-- Models Python `str.splitlines()` on texts whose only line terminator is `"\n"`
(the only terminator this kernel produces): like `splitNL` but without a final
empty piece for a trailing newline, so `"".splitlines() == []` and
`"a\n".splitlines() == ["a"]`. -/
def splitlinesPy (t : List Char) : List (List Char) :=
  let parts := splitNL t
  if parts.getLast? = some [] then parts.dropLast else parts

/-- Models `trim_empty_lines` (kernel.py lines 247-252) on Linux, where
`os.linesep == "\n"`: keep only the non-empty lines and re-join them. -/
def trim_empty_lines (t : List Char) : List Char :=
  joinNL ((splitlinesPy t).filter (fun l => !l.isEmpty))

/-- Models the response-composition tail of `do_execute` (kernel.py lines 317-322) as a
function of the handler result `t` held in `logger_output`: first, if `t` contains the
literal substring `"error"`, the whole text is wrapped by `error_message`; then
`delete_line_from_string` and `trim_empty_lines` are applied to produce the streamed
text. -/
def responseText (t : List Char) : List Char :=
  trim_empty_lines (delete_line_from_string (if containsError t then error_message t else t))

/-- The output-normalization pipeline in the order the specification states it:
first strip `Script (<name>) loaded correctly` noise, then drop empty lines, and
only then wrap in error colouring when the normalized text contains `"error"`.
This definition follows the specification's words and is compared against
`responseText`, which follows the code. -/
def specOrderNormalize (t : List Char) : List Char :=
  let t1 := delete_line_from_string t
  let t2 := trim_empty_lines t1
  if containsError t2 then error_message t2 else t2

/-- True when the first non-empty line does not begin with the directive marker,
i.e. when the input has no leading directive line (an input with no non-empty line
at all also counts). -/
def noLeadingDirective (lines : List (List Char)) : Bool :=
  ((lines.dropWhile List.isEmpty).headD []).head? != some '>'

/-- The trimmed original input: the text with its leading empty lines removed, which
is the only trimming the parser performs on directive-free input. -/
def trimmedOriginal (code : List Char) : List Char :=
  joinNL ((splitNL code).dropWhile List.isEmpty)

/-- A file system, modelled as an association list from file name to file content. -/
abbrev Fs := List (List Char × List Char)

/-- Looks a key up in an association list (Python dictionary indexing, and reading a
file's current content). -/
def lookupA : List (List Char × List Char) → List Char → Option (List Char)
  | [], _ => none
  | (n, c) :: rest, name => if n = name then some c else lookupA rest name

/-- Models `open(file_name, "a").write(data)`: append to the file, creating it empty
first when absent. -/
def fsAppend : Fs → List Char → List Char → Fs
  | [], name, data => [(name, data)]
  | (n, c) :: rest, name, data =>
    if n = name then (n, c ++ data) :: rest else (n, c) :: fsAppend rest name data

/-- Models Python `s.lstrip(strip_chars)`: removes from the front every character that
occurs anywhere in `strip_chars` (the argument is a character set, not a prefix). -/
def lstripSet (stripChars : List Char) (l : List Char) : List Char :=
  l.dropWhile (fun c => stripChars.contains c)

/-- Models `newfile_magic` (kernel.py lines 77-94): append a newline to the cell text,
take the first line as the magic argument, derive the file name with
`lstrip("$newfile ")` (a character-set strip), append everything after the first
newline to that file (mode `"a"`), and return the confirmation message. -/
def newfile_magic (fs : Fs) (code : List Char) : Fs × List Char :=
  let fullCode := code ++ ['\n']
  let magic_argument := fullCode.takeWhile (fun c => c != '\n')
  let file_name := lstripSet (chars "$newfile ") magic_argument
  let file_input := (fullCode.dropWhile (fun c => c != '\n')).drop 1
  (fsAppend fs file_name file_input, chars "File " ++ file_name ++ chars " is saved.")

/-- The hexadecimal digit characters used by `\xHH` escapes in a bytes repr. -/
def hexDigit (n : Nat) : Char := (chars "0123456789abcdef").getD n '0'

/-- One byte of Python `repr` of a bytes value, with quote character `q`: backslash,
the quote in use, newline, carriage return and tab are backslash-escaped, printable
ASCII is kept, and any other byte becomes `\xHH`. -/
def reprByte (q c : Char) : List Char :=
  if c = '\\' then ['\\', '\\']
  else if c = q then ['\\', q]
  else if c = '\n' then ['\\', 'n']
  else if c = '\r' then ['\\', 'r']
  else if c = '\t' then ['\\', 't']
  else if 32 ≤ c.toNat && c.toNat ≤ 126 then [c]
  else ['\\', 'x', hexDigit (c.toNat % 256 / 16), hexDigit (c.toNat % 16)]

/-- Models Python `repr` of a bytes value: `b`, then the escaped body in quotes;
single quotes are used unless the bytes contain a single quote and no double quote. -/
def bytesRepr (bs : List Char) : List Char :=
  let q := if bs.contains sq && !(bs.contains dq) then dq else sq
  'b' :: q :: (bs.flatMap (reprByte q)) ++ [q]

/-- Models Python `s.split("\\n")` — a split on the two-character sequence
backslash-`n` — scanning left to right with non-overlapping separators. -/
def splitEscNL : List Char → List (List Char)
  | [] => [[]]
  | [c] => [[c]]
  | c1 :: c2 :: rest =>
    if c1 = '\\' && c2 = 'n' then [] :: splitEscNL rest
    else
      match splitEscNL (c2 :: rest) with
      | [] => [[c1]]
      | l :: ls => (c1 :: l) :: ls

/-- Models `metacall_execute` (kernel.py lines 145-177) as a function of the bytes the
one-shot subprocess wrote to its stdout and stderr (the code is written to a
temporary file and the subprocess runs on it; its exit status is never inspected).
The streams are combined as `repr(stdout) + "\n" + repr(stderr)`, the slice
`[2:-5]` is taken, the result is split on the two-character sequence backslash-`n`,
and each piece is re-joined with a real newline appended. -/
def metacall_execute (stdoutBytes stderrBytes : List Char) : List Char :=
  let std_output := bytesRepr stdoutBytes
  let std_error := bytesRepr stderrBytes
  let full_output := std_output ++ '\n' :: std_error
  let exact_output := (full_output.take (full_output.length - 5)).drop 2
  let split_output := splitEscNL exact_output
  split_output.foldl (fun acc item => acc ++ item ++ ['\n']) []

/-- JSON values, as produced by Python `json.loads` on the data this kernel
exchanges: objects with string keys, arrays, strings without escape sequences,
integers, booleans and null. -/
inductive JVal where
  | null
  | bool (b : Bool)
  | num (n : Int)
  | str (s : List Char)
  | arr (xs : List JVal)
  | obj (kvs : List (List Char × JVal))

/-- Skips JSON whitespace (space, tab, newline, carriage return). -/
def jws (l : List Char) : List Char :=
  l.dropWhile (fun c => c = ' ' || c = '\t' || c = '\n' || c = '\r')

/-- Parses a JSON string body after the opening quote.  Escape sequences are not used
by the data this kernel exchanges and make the parse fail. -/
def parseJStr : List Char → Option (List Char × List Char)
  | [] => none
  | c :: rest =>
    if c = dq then some ([], rest)
    else if c = '\\' then none
    else (parseJStr rest).map (fun r => (c :: r.1, r.2))

/-- Parses a JSON integer: an optional minus sign and a nonempty digit run. -/
def parseJNum (l : List Char) : Option (Int × List Char) :=
  let p : Bool × List Char :=
    match l with
    | c :: rest => if c = '-' then (true, rest) else (false, l)
    | [] => (false, l)
  let digits := p.2.takeWhile Char.isDigit
  if digits.isEmpty then none
  else
    let n : Nat := digits.foldl (fun acc c => acc * 10 + (c.toNat - 48)) 0
    some (if p.1 then -(n : Int) else (n : Int), p.2.drop digits.length)

mutual

/-- Parses one JSON value from the front of the input, whitespace skipped first.  The
`Nat` argument is fuel; `loads` supplies more fuel than any input can consume. -/
def parseJVal : Nat → List Char → Option (JVal × List Char)
  | 0, _ => none
  | fuel + 1, input =>
    match jws input with
    | [] => none
    | c :: rest =>
      if c = dq then (parseJStr rest).map (fun r => (JVal.str r.1, r.2))
      else if c = Char.ofNat 123 then parseJObj fuel (jws rest)
      else if c = '[' then parseJArr fuel (jws rest)
      else if (chars "true").isPrefixOf (c :: rest) then some (JVal.bool true, rest.drop 3)
      else if (chars "false").isPrefixOf (c :: rest) then some (JVal.bool false, rest.drop 4)
      else if (chars "null").isPrefixOf (c :: rest) then some (JVal.null, rest.drop 3)
      else (parseJNum (c :: rest)).map (fun r => (JVal.num r.1, r.2))

/-- Parses a JSON object from just after its `{`, whitespace already skipped. -/
def parseJObj : Nat → List Char → Option (JVal × List Char)
  | 0, _ => none
  | fuel + 1, input =>
    match input with
    | [] => none
    | c :: rest =>
      if c = Char.ofNat 125 then some (JVal.obj [], rest)
      else (parseJMembers fuel (c :: rest)).map (fun r => (JVal.obj r.1, r.2))

/-- Parses the nonempty member list of a JSON object together with its closing
brace. -/
def parseJMembers : Nat → List Char → Option (List (List Char × JVal) × List Char)
  | 0, _ => none
  | fuel + 1, input =>
    match jws input with
    | [] => none
    | c :: rest =>
      if c = dq then
        match parseJStr rest with
        | none => none
        | some (key, rest1) =>
          match jws rest1 with
          | [] => none
          | c1 :: rest2 =>
            if c1 = ':' then
              match parseJVal fuel rest2 with
              | none => none
              | some (v, rest3) =>
                match jws rest3 with
                | [] => none
                | c2 :: rest4 =>
                  if c2 = ',' then
                    (parseJMembers fuel rest4).map (fun r => ((key, v) :: r.1, r.2))
                  else if c2 = Char.ofNat 125 then some ([(key, v)], rest4)
                  else none
            else none
      else none

/-- Parses a JSON array from just after its `[`, whitespace already skipped. -/
def parseJArr : Nat → List Char → Option (JVal × List Char)
  | 0, _ => none
  | fuel + 1, input =>
    match input with
    | [] => none
    | c :: rest =>
      if c = ']' then some (JVal.arr [], rest)
      else (parseJItems fuel (c :: rest)).map (fun r => (JVal.arr r.1, r.2))

/-- Parses the nonempty item list of a JSON array together with its closing
bracket. -/
def parseJItems : Nat → List Char → Option (List JVal × List Char)
  | 0, _ => none
  | fuel + 1, input =>
    match parseJVal fuel input with
    | none => none
    | some (v, rest) =>
      match jws rest with
      | [] => none
      | c :: rest1 =>
        if c = ',' then (parseJItems fuel rest1).map (fun r => (v :: r.1, r.2))
        else if c = ']' then some ([v], rest1)
        else none

end

/-- Models `json.loads`: parse one JSON value and require that only whitespace
remains. -/
def loads (l : List Char) : Option JVal :=
  match parseJVal (l.length + 1) l with
  | some (v, rest) => if (jws rest).isEmpty then some v else none
  | none => none

mutual

/-- Models `json.dumps` with its default separators `", "` and `": "`. -/
def dumps : JVal → List Char
  | .null => chars "null"
  | .bool true => chars "true"
  | .bool false => chars "false"
  | .num n => chars (toString n)
  | .str s => dq :: s ++ [dq]
  | .arr xs => '[' :: dumpsItems xs ++ [']']
  | .obj kvs => Char.ofNat 123 :: dumpsMembers kvs ++ [Char.ofNat 125]

/-- Serializes an array's items, `", "`-separated. -/
def dumpsItems : List JVal → List Char
  | [] => []
  | [x] => dumps x
  | x :: y :: rest => dumps x ++ chars ", " ++ dumpsItems (y :: rest)

/-- Serializes an object's members, `", "`-separated, keys quoted and `": "` before
each value. -/
def dumpsMembers : List (List Char × JVal) → List Char
  | [] => []
  | [(k, v)] => dq :: k ++ [dq] ++ chars ": " ++ dumps v
  | (k, v) :: kv :: rest =>
      dq :: k ++ [dq] ++ chars ": " ++ dumps v ++ chars ", " ++ dumpsMembers (kv :: rest)

end

/-- The request line `metacall_inspect` writes to the persistent process:
`"%inspect".lstrip() + "\n"`. -/
def inspectRequest : List Char := chars "%inspect" ++ ['\n']

/-- The read loop of `metacall_inspect` (kernel.py lines 213-218), applied to the
stream of lines the persistent process's stdout yields to `readline()`: each line
read is appended to the accumulator — the lone-newline terminator included — and the
loop stops when the line just read is exactly `b"\n"`.  Returns `none` when the
stream holds no terminator, in which case the Python loop never ends. -/
def inspectConcat : List (List Char) → Option (List Char)
  | [] => none
  | l :: rest =>
    if l = ['\n'] then some ['\n'] else (inspectConcat rest).map (fun t => l ++ t)

/-- Models `metacall_inspect`: read the reply, then `json.loads` it.  The outer
`none` is a read loop that never terminates; the inner `none` is a `loads` raise. -/
def metacall_inspect (stream : List (List Char)) : Option (Option JVal) :=
  (inspectConcat stream).map loads

/-- The body of `metacall_load` before its `except` clause: the one-line write/read
exchange with the persistent process either succeeds (the reply line is read and
discarded) or raises. -/
def metacall_load_body (exchange : Except (List Char) (List Char)) :
    Except (List Char) (List Char) :=
  match exchange with
  | .ok _ => .ok (chars "The file has been successfully loaded")
  | .error e => .error e

/-- Models `metacall_load` (kernel.py lines 221-237): the bare `except` converts any
exception from the exchange into the fixed not-loaded message, so the function
itself always returns normally. -/
def metacall_load (exchange : Except (List Char) (List Char)) :
    Except (List Char) (List Char) :=
  match metacall_load_body exchange with
  | .ok r => .ok r
  | .error _ => .ok (chars "The file was not loaded onto the Kernel")

/-- The shell-escape marker `!`. -/
def shcmd : List Char := chars "!"

/-- The shutdown token. -/
def shutd : List Char := chars "$shutdown"

/-- The new-file token. -/
def newfile : List Char := chars "$newfile"

/-- The inspect token. -/
def inspect_command : List Char := chars "%inspect"

/-- The load token. -/
def load_command : List Char := chars "%load"

/-- The help token. -/
def help_command : List Char := chars "$help"

/-- The extension table `extensions = {"python": ".py", "javascript": ".js"}`. -/
def extensions : List (List Char × List Char) :=
  [(chars "python", chars ".py"), (chars "javascript", chars ".js")]

/-- The message of the unsupported-directive-language branch (kernel.py lines
302-308); the tripled `p` in `suppport` is the code's own spelling. -/
def unsupportedMsg (lang : List Char) : List Char :=
  chars "We don\x27t suppport " ++ lang ++
    chars " language, yet.\nPlease try another language or add support for " ++
    lang ++ chars " language.\n"

/-- The help text of the `$help` branch (kernel.py lines 265-277). -/
def helpText : List Char := chars
  ("1. ! : Run a Shell Command on the MetaCall Jupyter Kernel\n" ++
   "2. shutdown : Shutdown the MetaCall Jupyter Kernel\n" ++
   "3. $inspect : Inspects the MetaCall to check all loaded functions\n" ++
   "4. %load: Loads a file onto the MetaCall which can be evaluated\n" ++
   "5. $newfile: Creates a new file and appends the code mentioned below\n" ++
   "6. %repl <tag>: Switch from different REPL (available tags: node, py)\n" ++
   "7. >lang: Execute scripts using the MetaCall exec by saving them in a " ++
   "temporary file (available languages: python, javascript)\n" ++
   "8. $help: Check all the commands and tags you can use while accessing " ++
   "the MetaCall Kernel\n" ++
   "9. %available: Checks all the available REPLs on the Kernel")

/-- The command kinds `do_execute` can route an input to. -/
inductive Route where
  | help
  | shellCommand
  | inspectCmd
  | loadCmd
  | newfileCmd
  | shutdownCmd
  | directiveExecute (lang : List Char)
  | replForward
  deriving DecidableEq

/-- The routing chain of `do_execute` (kernel.py lines 264-311) on the parsed pair
`(magics, code)`: literal-prefix checks on the code in source order, then — when the
magic list is non-empty — the directive branch with the lowercased concatenation
`"".join(magics).lower()` of every magic, and otherwise the REPL forward default. -/
def routeOf (magics : List (List Char)) (code : List Char) : Route :=
  if help_command.isPrefixOf code then .help
  else if shcmd.isPrefixOf code then .shellCommand
  else if inspect_command.isPrefixOf code then .inspectCmd
  else if load_command.isPrefixOf code then .loadCmd
  else if newfile.isPrefixOf code then .newfileCmd
  else if shutd.isPrefixOf code then .shutdownCmd
  else
    match magics with
    | [] => .replForward
    | _ => .directiveExecute ((magics.flatten).map Char.toLower)

/-- Routing as a function of the raw cell text. -/
def route (input : List Char) : Route :=
  routeOf (split_magics input).1 (split_magics input).2

/-- Models Python `str.lstrip()` default whitespace for the characters this kernel
can meet. -/
def isPySpace (c : Char) : Bool := c = ' ' || c = '\t' || c = '\n' || c = '\r'

/-- Models `shell_execute` (kernel.py lines 179-199) as a function of the completed
subprocess: colour the combined output redly when the exit code is non-zero. -/
def shell_execute (run : Nat × List Char) : List Char :=
  if run.1 = 0 then run.2 else error_message run.2

/-- The external world one `do_execute` call interacts with: the file system, the
persistent REPL subprocess (an exchange that may raise, keyed by the forwarded
code), the shell (exit code and combined decoded output, keyed by the command), the
one-shot script subprocess (stdout and stderr bytes, keyed by code and extension),
the stdout line stream available after an `%inspect` request, and the outcome of the
load exchange. -/
structure Ext where
  fs : Fs
  repl : List Char → Except (List Char) (List Char)
  shell : List Char → Nat × List Char
  exec : List Char → List Char → List Char × List Char
  inspectStream : List (List Char)
  loadExchange : Except (List Char) (List Char)

/-- Result of the `try` body of `do_execute`: a normal branch result (the value of
`logger_output`, which the shutdown branch leaves unset, the messages already sent,
and the updated file system), an exception reaching the `except` clause, or a branch
that never returns (an `%inspect` read loop with no terminator). -/
inductive TryOut where
  | done (lo : Option (List Char)) (msgs : List (List Char)) (fs : Fs)
  | exn (e : List Char) (fs : Fs)
  | hung
  deriving DecidableEq

/-- How one `do_execute` call ends: normally, with an uncaught exception, or never. -/
inductive Outcome where
  | ok
  | raised (e : List Char)
  | hung
  deriving DecidableEq

/-- Observable effect of one `do_execute` call: how it ended, the stream messages it
sent in order, and the resulting file system. -/
structure ExecResult where
  outcome : Outcome
  messages : List (List Char)
  fs : Fs
  deriving DecidableEq

/-- Stand-in for the message of the `json.JSONDecodeError` that `json.loads` raises
on malformed data (the exact Python message text is abstracted). -/
def jsonErrorMsg : List Char := chars "Expecting value"

/-- Stand-in for the message of the `UnboundLocalError` raised when `do_execute`
reads `logger_output` after a branch that never assigned it. -/
def unboundLocalMsg : List Char :=
  chars "local variable \x27logger_output\x27 referenced before assignment"

/-- The `try` body of `do_execute` (kernel.py lines 264-312): the routing chain plus
the handler call of the selected branch.  The shutdown branch calls
`do_shutdown(False)` — which sends its fixed message — and assigns nothing to
`logger_output`. -/
def tryBody (ext : Ext) (magics : List (List Char)) (code : List Char) : TryOut :=
  match routeOf magics code with
  | .help => .done (some helpText) [] ext.fs
  | .shellCommand =>
      .done (some (shell_execute (ext.shell ((code.drop shcmd.length).dropWhile isPySpace))))
        [] ext.fs
  | .inspectCmd =>
      match inspectConcat ext.inspectStream with
      | none => .hung
      | some t =>
        match loads t with
        | some v => .done (some (dumps v)) [] ext.fs
        | none => .exn jsonErrorMsg ext.fs
  | .loadCmd =>
      match metacall_load ext.loadExchange with
      | .ok msg => .done (some msg) [] ext.fs
      | .error e => .exn e ext.fs
  | .newfileCmd =>
      let r := newfile_magic ext.fs code
      .done (some r.2) [] r.1
  | .shutdownCmd => .done none [chars "Kernel Shutdown!"] ext.fs
  | .directiveExecute lang =>
      match lookupA extensions lang with
      | some extn =>
          .done (some (metacall_execute (ext.exec code extn).1 (ext.exec code extn).2)) [] ext.fs
      | none => .done (some (unsupportedMsg lang)) [] ext.fs
  | .replForward =>
      match ext.repl code with
      | .ok out => .done (some out) [] ext.fs
      | .error e => .exn e ext.fs

/-- Models one non-lifecycle `do_execute` call (kernel.py lines 53-331).  In silent
mode the whole body is skipped.  Otherwise the `except` clause turns an exception
from the `try` body into `error_message(str(e))`; the code after it reads
`logger_output` — which raises `UnboundLocalError` when the shutdown branch left it
unset — applies the `"error"` colouring check, `delete_line_from_string` and
`trim_empty_lines`, and sends the single stream message. -/
def do_execute (ext : Ext) (input : List Char) (silent : Bool) : ExecResult :=
  if silent then ⟨.ok, [], ext.fs⟩
  else
    match tryBody ext (split_magics input).1 (split_magics input).2 with
    | .hung => ⟨.hung, [], ext.fs⟩
    | .exn e fs => ⟨.ok, [responseText (error_message e)], fs⟩
    | .done none msgs fs => ⟨.raised unboundLocalMsg, msgs, fs⟩
    | .done (some t) msgs fs => ⟨.ok, msgs ++ [responseText t], fs⟩

/-- A byte that Python `repr` of a bytes value reproduces verbatim: printable ASCII
other than the single quote and the backslash. -/
def plainByte (c : Char) : Bool :=
  decide (32 ≤ c.toNat) && decide (c.toNat ≤ 126) && c != sq && c != '\\'

/-- A sample external world, used to exercise the model on concrete inputs: an empty
file system, a REPL exchange with a fixed outcome, a silent successful shell, a
silent one-shot subprocess, a given inspect line stream, and a successful load
exchange. -/
def extSample (stream : List (List Char)) (replOutcome : Except (List Char) (List Char)) :
    Ext :=
  ⟨[], fun _ => replOutcome, fun _ => (0, []), fun _ _ => ([], []), stream, Except.ok []⟩

/-- Result of `do_shutdown`: the restart value of its reply dictionary, the stream
messages it sends, and the lines it writes to the persistent process. -/
structure ShutdownResult where
  restartReply : Bool
  messages : List (List Char)
  processWrites : List (List Char)
  deriving DecidableEq

/-- Models `do_shutdown` (kernel.py lines 333-346): sends the fixed
`"Kernel Shutdown!"` stream message, writes nothing to the persistent process, and
returns `{"restart": False}` whatever its argument and whatever the session state. -/
def do_shutdown : Bool → ShutdownResult :=
  fun _ => ⟨false, [chars "Kernel Shutdown!"], []⟩

/-!
### Helper lemmas
-/

/-- On a line list whose first non-empty line does not begin with the marker, the
`split_magics` state machine collects no magic and keeps every line after the
leading empty ones. -/
theorem splitMagicsGo_no_directive (lines : List (List Char))
    (h : noLeadingDirective lines = true) :
    splitMagicsGo lines = ([], lines.dropWhile List.isEmpty) := by
  induction lines with
  | nil => simp [splitMagicsGo]
  | cons l rest ih =>
    rcases eq_or_ne l [] with hl | hl
    · subst hl
      have h' : noLeadingDirective rest = true := by
        simpa [noLeadingDirective, List.dropWhile_cons] using h
      simpa [splitMagicsGo, List.dropWhile_cons] using ih h'
    · have hE : l.isEmpty = false := by
        cases l with
        | nil => exact absurd rfl hl
        | cons a as => rfl
      have hh : l.head? ≠ some '>' := by
        have h' := h
        simp only [noLeadingDirective, List.dropWhile_cons, hE, Bool.false_eq_true,
          if_false, List.headD_cons] at h'
        exact bne_iff_ne.mp h'
      simp [splitMagicsGo, hh, hl, List.dropWhile_cons, hE]

/-- Reading back the key just appended to: the file's new content is its old content
(empty when the file was absent) with the data appended. -/
theorem lookupA_fsAppend (fs : Fs) (name data : List Char) :
    lookupA (fsAppend fs name data) name = some ((lookupA fs name).getD [] ++ data) := by
  induction fs with
  | nil => simp [fsAppend, lookupA]
  | cons p rest ih =>
    obtain ⟨n, c⟩ := p
    rcases eq_or_ne n name with h | h
    · subst h; simp [fsAppend, lookupA]
    · simp [fsAppend, lookupA, h, ih]

/-- Taking the first line of a text known to be `first ++ "\n" ++ rest` with a
newline-free first part yields `first`. -/
theorem takeWhile_line (first rest : List Char) (h : '\n' ∉ first) :
    (first ++ '\n' :: rest).takeWhile (fun c => c != '\n') = first := by
  induction first with
  | nil => simp [List.takeWhile_cons]
  | cons c cs ih =>
    have hc : c ≠ '\n' := fun e => h (e ▸ List.mem_cons_self c cs)
    have h' : '\n' ∉ cs := fun hm => h (List.mem_cons_of_mem _ hm)
    simp [List.takeWhile_cons, hc, ih h']

/-- Dropping the first line of a text known to be `first ++ "\n" ++ rest` with a
newline-free first part leaves the newline and `rest`. -/
theorem dropWhile_line (first rest : List Char) (h : '\n' ∉ first) :
    (first ++ '\n' :: rest).dropWhile (fun c => c != '\n') = '\n' :: rest := by
  induction first with
  | nil => simp [List.dropWhile_cons]
  | cons c cs ih =>
    have hc : c ≠ '\n' := fun e => h (e ▸ List.mem_cons_self c cs)
    have h' : '\n' ∉ cs := fun hm => h (List.mem_cons_of_mem _ hm)
    simp [List.dropWhile_cons, hc, ih h']

/-- A plain byte is reproduced verbatim inside a single-quoted bytes repr. -/
theorem reprByte_plain (c : Char) (h : plainByte c = true) : reprByte sq c = [c] := by
  simp only [plainByte, Bool.and_eq_true, bne_iff_ne, decide_eq_true_eq] at h
  obtain ⟨⟨⟨h32, h126⟩, hsq⟩, hbs⟩ := h
  have hn : c ≠ '\n' := by intro e; subst e; simp at h32
  have hr : c ≠ '\r' := by intro e; subst e; simp at h32
  have ht : c ≠ '\t' := by intro e; subst e; simp at h32
  simp [reprByte, hbs, hsq, hn, hr, ht, h32, h126]

/-- A list of plain bytes escapes to itself inside a single-quoted bytes repr. -/
theorem flatMap_reprByte_plain (bs : List Char) (h : bs.all plainByte = true) :
    bs.flatMap (reprByte sq) = bs := by
  induction bs with
  | nil => rfl
  | cons c cs ih =>
    rw [List.all_cons, Bool.and_eq_true] at h
    simp [List.flatMap_cons, reprByte_plain c h.1, ih h.2]

/-- A plain byte list has no single quote, so its repr is single-quoted and its body
is itself. -/
theorem bytesRepr_plain (bs : List Char) (h : bs.all plainByte = true) :
    bytesRepr bs = 'b' :: sq :: bs ++ [sq] := by
  have hsq : sq ∉ bs := by
    intro hm
    have := List.all_eq_true.mp h sq hm
    simp [plainByte] at this
  simp [bytesRepr, hsq, flatMap_reprByte_plain bs h]

/-- A text without backslashes contains no escaped-newline separator, so splitting on
the separator leaves it whole. -/
theorem splitEscNL_no_backslash (l : List Char) (h : '\\' ∉ l) :
    splitEscNL l = [l] := by
  induction l with
  | nil => rfl
  | cons c cs ih =>
    have hc : c ≠ '\\' := fun e => h (e ▸ List.mem_cons_self c cs)
    have h' : '\\' ∉ cs := fun hm => h (List.mem_cons_of_mem _ hm)
    cases cs with
    | nil => rfl
    | cons c2 cs2 =>
      have hcond : (c = '\\' && c2 = 'n') = false := by simp [hc]
      simp only [splitEscNL, hcond, Bool.false_eq_true, if_false, ih h']

/-- Reading one non-terminator line inside the inspect loop prepends the line to
whatever the rest of the stream accumulates. -/
theorem inspectConcat_cons (L : List Char) (tl : List (List Char)) (h : L ≠ []) :
    inspectConcat ((L ++ ['\n']) :: tl) =
      (inspectConcat tl).map (fun t => (L ++ ['\n']) ++ t) := by
  have hne : ¬ (L ++ ['\n'] = ['\n']) := by
    intro he
    have hlen := congrArg List.length he
    simp at hlen
    exact h hlen
  simp [inspectConcat, hne]

/-!
### The claims
-/

/-- C6: for every input block in which no leading line begins with the directive
marker (equivalently: whose first non-empty line does not begin with `>`), the magic
parser returns an empty directive list and a payload equal to the trimmed original
input, where trimming removes the leading empty lines the directive phase skips. -/
theorem c6_directive_free_parse (code : List Char)
    (h : noLeadingDirective (splitNL code) = true) :
    split_magics code = ([], trimmedOriginal code) := by
  simp [split_magics, trimmedOriginal, splitMagicsGo_no_directive _ h]

/-- Witness for C6 at the concrete input `"\nprint(1)\n"`. -/
theorem c6_directive_free_parse_witness :
    noLeadingDirective (splitNL (chars "\nprint(1)\n")) = true ∧
    split_magics (chars "\nprint(1)\n") = ([], trimmedOriginal (chars "\nprint(1)\n")) :=
  ⟨by decide, c6_directive_free_parse _ (by decide)⟩

/-- C10: the magic parser strips every consecutive leading marker from a directive
line — a `>>`-prefixed line parses exactly like the `>`-prefixed one, so `>>python`
yields the tag `python` — and blank lines before the first non-blank non-directive
line are dropped from the payload even when no directives are present. -/
theorem c10_marker_stripping_blank_skipping :
    (∀ (tag : List Char) (rest : List (List Char)),
        splitMagicsGo (('>' :: '>' :: tag) :: rest) =
          splitMagicsGo (('>' :: tag) :: rest)) ∧
    (∀ lines : List (List Char), splitMagicsGo ([] :: lines) = splitMagicsGo lines) ∧
    split_magics (chars ">>python\nprint(1)") = ([chars "python"], chars "print(1)") ∧
    split_magics (chars "\n\nprint(1)") = ([], chars "print(1)") := by
  refine ⟨fun tag rest => ?_, fun lines => ?_, by decide, by decide⟩
  · simp [splitMagicsGo, List.dropWhile_cons]
  · simp [splitMagicsGo]

/-- C2 fails as stated: on the handler text `"Script (error.js) loaded correctly"`
the code's pipeline (colour first, on the raw text) keeps a pair of colour escapes,
while the claimed pipeline (strip noise and drop empty lines before the `"error"`
check) delivers empty text. -/
theorem c2_counterexample :
    responseText (chars "Script (error.js) loaded correctly") = chars "\x1b[0;31m\x1b[0m" ∧
    specOrderNormalize (chars "Script (error.js) loaded correctly") = [] ∧
    responseText (chars "Script (error.js) loaded correctly") ≠
      specOrderNormalize (chars "Script (error.js) loaded correctly") := by
  refine ⟨by decide, by decide, by decide⟩

/-- C2 amended: the normalizer first checks the raw handler text for the literal
case-sensitive substring `"error"` and, if present, wraps the whole raw text in the
error colour escapes; only then does it strip `Script (<name>) loaded correctly`
noise and drop empty lines.  The concrete conjunct shows the wrap happening before
empty-line dropping: the trailing empty lines end up between the colour escapes. -/
theorem c2_normalizer_order :
    (∀ t : List Char,
        responseText t =
          trim_empty_lines (delete_line_from_string
            (if containsError t then error_message t else t))) ∧
    responseText (chars "error\n\n") = chars "\x1b[0;31merror\n\x1b[0m" := by
  exact ⟨fun t => rfl, by decide⟩

/-- C4: for every argument value and whatever the session state (which the handler
never consults), `do_shutdown` reports restart `false`, emits exactly the one fixed
confirmation message, and writes nothing to the persistent process; and a
`"$shutdown"` cell routed through `do_execute` emits exactly that one message
whatever the external world. -/
theorem c4_shutdown (restart : Bool) :
    (do_shutdown restart).restartReply = false ∧
    (do_shutdown restart).messages = [chars "Kernel Shutdown!"] ∧
    (do_shutdown restart).processWrites = [] ∧
    (∀ ext : Ext,
        (do_execute ext (chars "$shutdown") false).messages = [chars "Kernel Shutdown!"]) :=
  ⟨rfl, rfl, rfl, fun _ => rfl⟩

/-- C9: whatever the outcome of the write/read exchange with the persistent process,
`metacall_load` returns normally (its bare `except` swallows every exception), and
when the exchange raised it returns the fixed not-loaded message. -/
theorem c9_load_failure_caught (exchange : Except (List Char) (List Char)) :
    (metacall_load exchange).isOk = true ∧
    (∀ e : List Char, exchange = Except.error e →
        metacall_load exchange = Except.ok (chars "The file was not loaded onto the Kernel")) := by
  constructor
  · cases exchange <;> rfl
  · intro e he
    subst he
    rfl

/-- C1 fails as stated: on an input with two `python` directives the router selects
DirectiveExecute with the lowercased concatenation of every directive tag
(`"".join(magics).lower()` gives `pythonpython`), not the first tag `python`, and
the concatenated tag resolves to no extension even though `python` by itself is a
supported language. -/
theorem c1_counterexample :
    route (chars ">python\n>python\nprint(1)") =
      Route.directiveExecute (chars "pythonpython") ∧
    route (chars ">python\n>python\nprint(1)") ≠ Route.directiveExecute (chars "python") ∧
    (split_magics (chars ">python\n>python\nprint(1)")).1.headD [] = chars "python" ∧
    lookupA extensions (chars "python") = some (chars ".py") ∧
    lookupA extensions (chars "pythonpython") = none := by
  refine ⟨by decide, by decide, by decide, by decide, by decide⟩

/-- C1 amended: for every input whose directive list is non-empty and whose payload
matches no earlier-priority token, the router selects DirectiveExecute using the
lowercased concatenation of all directive tags as the target language; when that
tag has no registered extension the handler answers with the descriptive
unsupported-language message instead of failing.  In particular
`">python\nprint(1)"` routes to DirectiveExecute with tag `python`, which resolves
to the `.py` extension. -/
theorem c1_directive_routing (input : List Char)
    (hm : (split_magics input).1 ≠ [])
    (h1 : help_command.isPrefixOf (split_magics input).2 = false)
    (h2 : shcmd.isPrefixOf (split_magics input).2 = false)
    (h3 : inspect_command.isPrefixOf (split_magics input).2 = false)
    (h4 : load_command.isPrefixOf (split_magics input).2 = false)
    (h5 : newfile.isPrefixOf (split_magics input).2 = false)
    (h6 : shutd.isPrefixOf (split_magics input).2 = false) :
    route input =
      Route.directiveExecute (((split_magics input).1.flatten).map Char.toLower) ∧
    (∀ ext : Ext,
        lookupA extensions (((split_magics input).1.flatten).map Char.toLower) = none →
        tryBody ext (split_magics input).1 (split_magics input).2 =
          TryOut.done
            (some (unsupportedMsg (((split_magics input).1.flatten).map Char.toLower)))
            [] ext.fs) ∧
    route (chars ">python\nprint(1)") = Route.directiveExecute (chars "python") ∧
    lookupA extensions (chars "python") = some (chars ".py") := by
  have hroute : routeOf (split_magics input).1 (split_magics input).2 =
      Route.directiveExecute (((split_magics input).1.flatten).map Char.toLower) := by
    obtain ⟨m, ms, hmag⟩ : ∃ m ms, (split_magics input).1 = m :: ms := by
      cases hq : (split_magics input).1 with
      | nil => exact absurd hq hm
      | cons m ms => exact ⟨m, ms, rfl⟩
    rw [hmag]
    simp only [routeOf, h1, h2, h3, h4, h5, h6, Bool.false_eq_true, if_false]
  refine ⟨hroute, fun ext hnone => ?_, by decide, by decide⟩
  simp only [tryBody, hroute, hnone]

/-- Witness for C1 at the concrete input `">python\nprint(1)"`. -/
theorem c1_directive_routing_witness :
    (split_magics (chars ">python\nprint(1)")).1 ≠ [] ∧
    route (chars ">python\nprint(1)") =
      Route.directiveExecute
        ((((split_magics (chars ">python\nprint(1)")).1.flatten).map Char.toLower)) :=
  ⟨by decide,
    (c1_directive_routing (chars ">python\nprint(1)") (by decide) (by decide) (by decide)
      (by decide) (by decide) (by decide) (by decide)).1⟩

/-- C3 fails as stated: for the request `"$newfile example.py\nhello"` the Python
`lstrip("$newfile ")` strips leading characters of the set
`{$, n, e, w, f, i, l, space}`, eating the leading `e` of `example.py`; the
confirmation names `xample.py`, not the requested file name, and nothing is stored
under `example.py`. -/
theorem c3_counterexample :
    (newfile_magic [] (chars "$newfile example.py\nhello")).2 =
      chars "File xample.py is saved." ∧
    (newfile_magic [] (chars "$newfile example.py\nhello")).2 ≠
      chars "File example.py is saved." ∧
    lookupA (newfile_magic [] (chars "$newfile example.py\nhello")).1
      (chars "example.py") = none := by
  refine ⟨by decide, by decide, by decide⟩

/-- C3 amended: the handler derives the file name from the request's first line by
stripping every leading character belonging to the set `"$newfile "`; the
confirmation names that derived file name; and because the file is opened in append
mode and the payload gains a trailing newline, the file afterwards holds its
previous content (empty for a fresh file) followed by the payload and a newline —
equal to the payload bytes written exactly when the file did not exist before and
the trailing newline is counted as written. -/
theorem c3_newfile_roundtrip (fs : Fs) (code first rest name : List Char)
    (hsplit : code = first ++ '\n' :: rest)
    (hfirst : '\n' ∉ first)
    (hname : name = lstripSet (chars "$newfile ") first) :
    (newfile_magic fs code).2 = chars "File " ++ name ++ chars " is saved." ∧
    lookupA (newfile_magic fs code).1 name =
      some ((lookupA fs name).getD [] ++ (rest ++ ['\n'])) ∧
    route (chars "$newfile a.py\nhi") = Route.newfileCmd := by
  subst hsplit hname
  have hfc : (first ++ '\n' :: rest) ++ ['\n'] = first ++ '\n' :: (rest ++ ['\n']) := by
    simp
  refine ⟨?_, ?_, by decide⟩
  · simp [newfile_magic, hfc, takeWhile_line _ _ hfirst]
  · simp [newfile_magic, hfc, takeWhile_line _ _ hfirst, dropWhile_line _ _ hfirst,
      lookupA_fsAppend]

/-- Witness for C3 at the concrete request `"$newfile a.py\nhi"` on an empty file
system. -/
theorem c3_newfile_roundtrip_witness :
    chars "$newfile a.py\nhi" = chars "$newfile a.py" ++ '\n' :: chars "hi" ∧
    ('\n' ∉ chars "$newfile a.py") ∧
    chars "a.py" = lstripSet (chars "$newfile ") (chars "$newfile a.py") ∧
    ((newfile_magic [] (chars "$newfile a.py\nhi")).2 =
        chars "File " ++ chars "a.py" ++ chars " is saved." ∧
      lookupA (newfile_magic [] (chars "$newfile a.py\nhi")).1 (chars "a.py") =
        some ((lookupA [] (chars "a.py")).getD [] ++ (chars "hi" ++ ['\n'])) ∧
      route (chars "$newfile a.py\nhi") = Route.newfileCmd) :=
  ⟨by decide, by decide, by decide,
    c3_newfile_roundtrip [] (chars "$newfile a.py\nhi") (chars "$newfile a.py")
      (chars "hi") (chars "a.py") (by decide) (by decide) (by decide)⟩

/-- C5: exceptions raised by a handler are indeed caught at the router level and
converted to a colour-wrapped message (second conjunct, shown for the REPL-forward
exchange); but a non-silent `"$shutdown"` request escapes the dispatch entry point
with an `UnboundLocalError`, because the shutdown branch never assigns
`logger_output` and the colouring check that reads it sits outside the `try`. -/
theorem c5_dispatch_exception_policy :
    (∀ ext : Ext, (do_execute ext (chars "$shutdown") false).outcome =
        Outcome.raised unboundLocalMsg) ∧
    (∀ (ext : Ext) (input e : List Char),
        routeOf (split_magics input).1 (split_magics input).2 = Route.replForward →
        ext.repl (split_magics input).2 = Except.error e →
        do_execute ext input false =
          ⟨Outcome.ok, [responseText (error_message e)], ext.fs⟩) := by
  refine ⟨fun ext => rfl, fun ext input e hr he => ?_⟩
  simp [do_execute, tryBody, hr, he]

/-- Witness for C5: a concrete dead-pipe REPL exchange is caught and colour-wrapped
into the response. -/
theorem c5_dispatch_exception_policy_witness :
    routeOf (split_magics (chars "x")).1 (split_magics (chars "x")).2 =
      Route.replForward ∧
    (extSample [] (Except.error (chars "broken pipe"))).repl
        (split_magics (chars "x")).2 = Except.error (chars "broken pipe") ∧
    do_execute (extSample [] (Except.error (chars "broken pipe"))) (chars "x") false =
      ⟨Outcome.ok, [responseText (error_message (chars "broken pipe"))],
        (extSample [] (Except.error (chars "broken pipe"))).fs⟩ :=
  ⟨by decide, rfl, c5_dispatch_exception_policy.2 _ _ _ (by decide) rfl⟩

/-- C7 fails in its error-stream half: for stderr bytes `"boom"` the captured output
does not contain `"boom"` — the `[2:-5]` slice of the combined repr eats the escaped
stderr tail — and the delivered message carries no error styling because the text
contains no lowercase `"error"`. -/
theorem c7_counterexample :
    ¬ List.IsInfix (chars "boom") (metacall_execute [] (chars "boom")) ∧
    responseText (metacall_execute [] (chars "boom")) = chars "\x27\nb\x27" ∧
    containsError (metacall_execute [] (chars "boom")) = false := by
  refine ⟨by decide, by decide, by decide⟩

/-- Truncating slice of the ephemeral runner: taking all but the last five
characters of a list with a known five-character tail removes exactly that tail. -/
theorem take_sub_five (l t : List Char) (h : t.length = 5) :
    (l ++ t).take ((l ++ t).length - 5) = l := by
  have hl : (l ++ t).length - 5 = l.length := by simp [h]
  rw [hl, List.take_left]

/-- C7 amended: a run producing no output on either stream yields empty captured
output after normalization; a run writing at least four plain-ASCII bytes to stderr
(stdout plain as well) has the stderr text, truncated of its last four characters,
appear in the captured output `S ++ "'\nb'" ++ E[:-4] ++ "\n"`; and error styling is
applied only through the `"error"` substring check, as the concrete styled case
shows. -/
theorem c7_exec_capture (S E : List Char)
    (hS : S.all plainByte = true) (hE : E.all plainByte = true)
    (hlen : 4 ≤ E.length) :
    metacall_execute S E =
      S ++ sq :: '\n' :: 'b' :: sq :: (E.take (E.length - 4) ++ ['\n']) ∧
    List.IsInfix (E.take (E.length - 4)) (metacall_execute S E) ∧
    metacall_execute [] [] = ['\n'] ∧
    responseText (metacall_execute [] []) = [] ∧
    List.IsPrefix (chars "\x1b[0;31m")
      (responseText (metacall_execute [] (chars "error text"))) := by
  have hbsS : '\\' ∉ S := by
    intro hm
    have := List.all_eq_true.mp hS _ hm
    simp [plainByte] at this
  have hbsE : '\\' ∉ E.take (E.length - 4) := by
    intro hm
    have := List.all_eq_true.mp hE _ (List.take_subset _ _ hm)
    simp [plainByte] at this
  have hkey : metacall_execute S E =
      (S ++ sq :: '\n' :: 'b' :: sq :: E.take (E.length - 4)) ++ ['\n'] := by
    have hdecomp : E = E.take (E.length - 4) ++ E.drop (E.length - 4) :=
      (List.take_append_drop _ E).symm
    have htail : (E.drop (E.length - 4) ++ [sq]).length = 5 := by
      simp [List.length_drop]
      omega
    simp only [metacall_execute]
    rw [bytesRepr_plain S hS, bytesRepr_plain E hE]
    have hfull : ('b' :: sq :: S ++ [sq]) ++ '\n' :: ('b' :: sq :: E ++ [sq]) =
        ('b' :: sq :: (S ++ sq :: '\n' :: 'b' :: sq :: E.take (E.length - 4))) ++
          (E.drop (E.length - 4) ++ [sq]) := by
      conv_lhs => rw [hdecomp]
      simp only [List.cons_append, List.append_assoc, List.singleton_append,
        List.nil_append]
    rw [hfull, take_sub_five _ _ htail]
    have hnb : '\\' ∉ S ++ sq :: '\n' :: 'b' :: sq :: E.take (E.length - 4) := by
      intro hm
      simp only [List.mem_append, List.mem_cons] at hm
      rcases hm with h | h | h | h | h | h
      · exact hbsS h
      · exact absurd h (by decide)
      · exact absurd h (by decide)
      · exact absurd h (by decide)
      · exact absurd h (by decide)
      · exact hbsE h
    simp only [List.drop_succ_cons, List.drop_zero]
    rw [splitEscNL_no_backslash _ hnb]
    simp
  refine ⟨by rw [hkey]; simp, ?_, by decide, by decide, by decide⟩
  exact ⟨S ++ [sq, '\n', 'b', sq], ['\n'], by rw [hkey]; simp⟩

/-- Witness for C7 at stdout `"ok"` and stderr `"boom!"`. -/
theorem c7_exec_capture_witness :
    (chars "ok").all plainByte = true ∧
    (chars "boom!").all plainByte = true ∧
    4 ≤ (chars "boom!").length ∧
    metacall_execute (chars "ok") (chars "boom!") =
      chars "ok" ++ sq :: '\n' :: 'b' :: sq ::
        ((chars "boom!").take ((chars "boom!").length - 4) ++ ['\n']) :=
  ⟨by decide, by decide, by decide,
    (c7_exec_capture (chars "ok") (chars "boom!") (by decide) (by decide) (by decide)).1⟩

/-- C8: the inspect handler writes the fixed `%inspect` request line; its read loop
concatenates the decoded lines up to and including the lone-newline terminator; on
the synthetic two-line structured reply the parse succeeds and the concatenation of
the two lines parses to the same object; and through `do_execute` the response is
that object re-serialized by `json.dumps`. -/
theorem c8_inspect_roundtrip (L1 L2 : List Char) (rest : List (List Char))
    (h1 : L1 ≠ []) (h2 : L2 ≠ []) :
    inspectRequest = chars "%inspect" ++ ['\n'] ∧
    inspectConcat ((L1 ++ ['\n']) :: (L2 ++ ['\n']) :: ['\n'] :: rest) =
      some ((L1 ++ ['\n']) ++ ((L2 ++ ['\n']) ++ ['\n'])) ∧
    metacall_inspect
        ((chars "\x7b\"sum\": 1," ++ ['\n']) :: (chars "\"inc\": 2\x7d" ++ ['\n']) ::
          ['\n'] :: rest) =
      some (some (JVal.obj [(chars "sum", JVal.num 1), (chars "inc", JVal.num 2)])) ∧
    loads (chars "\x7b\"sum\": 1," ++ chars "\"inc\": 2\x7d") =
      some (JVal.obj [(chars "sum", JVal.num 1), (chars "inc", JVal.num 2)]) ∧
    do_execute
        (extSample
          [chars "\x7b\"sum\": 1," ++ ['\n'], chars "\"inc\": 2\x7d" ++ ['\n'], ['\n']]
          (Except.ok []))
        (chars "%inspect") false =
      ⟨Outcome.ok, [chars "\x7b\"sum\": 1, \"inc\": 2\x7d"], []⟩ := by
  refine ⟨rfl, ?_, ?_, by rfl, by rfl⟩
  · rw [inspectConcat_cons _ _ h1, inspectConcat_cons _ _ h2]
    simp [inspectConcat]
  · have hc : inspectConcat
        ((chars "\x7b\"sum\": 1," ++ ['\n']) :: (chars "\"inc\": 2\x7d" ++ ['\n']) ::
          ['\n'] :: rest) =
        some ((chars "\x7b\"sum\": 1," ++ ['\n']) ++
          ((chars "\"inc\": 2\x7d" ++ ['\n']) ++ ['\n'])) := by
      rw [inspectConcat_cons _ _ (by decide), inspectConcat_cons _ _ (by decide)]
      simp [inspectConcat]
    rw [metacall_inspect, hc]
    rfl

/-- Witness for C8 at the concrete synthetic reply lines. -/
theorem c8_inspect_roundtrip_witness :
    (chars "\x7b\"sum\": 1," ≠ []) ∧
    (chars "\"inc\": 2\x7d" ≠ []) ∧
    inspectConcat
        ((chars "\x7b\"sum\": 1," ++ ['\n']) :: (chars "\"inc\": 2\x7d" ++ ['\n']) ::
          ['\n'] :: []) =
      some ((chars "\x7b\"sum\": 1," ++ ['\n']) ++
        ((chars "\"inc\": 2\x7d" ++ ['\n']) ++ ['\n'])) :=
  ⟨by decide, by decide,
    (c8_inspect_roundtrip (chars "\x7b\"sum\": 1,") (chars "\"inc\": 2\x7d") []
      (by decide) (by decide)).2.1⟩

/-- Witness for C9 at a concrete broken-pipe failure. -/
theorem c9_load_failure_caught_witness :
    (Except.error (chars "broken pipe") : Except (List Char) (List Char)) =
      Except.error (chars "broken pipe") ∧
    metacall_load (Except.error (chars "broken pipe")) =
      Except.ok (chars "The file was not loaded onto the Kernel") :=
  ⟨rfl, (c9_load_failure_caught _).2 _ rfl⟩

end MetacallKernel
